import Mathlib

/- Shallow embedding of the gravitational N-body simulator: the bounded
2D variant (src/2d.js) and the Body integration update of the unbounded
3D variant (src/unnamed/part_000).  JavaScript floating-point arithmetic
is modelled by exact real arithmetic; Math.sqrt is Real.sqrt. -/

namespace NBody

noncomputable section

/-- Planar vector, mirroring THREE.Vector2 as used by the code. -/
@[ext]
structure Vec2 where
  x : ℝ
  y : ℝ

/-- Componentwise addition (THREE.Vector2.add). -/
def Vec2.add (a b : Vec2) : Vec2 := ⟨a.x + b.x, a.y + b.y⟩

/-- Componentwise subtraction (THREE.Vector2.sub). -/
def Vec2.sub (a b : Vec2) : Vec2 := ⟨a.x - b.x, a.y - b.y⟩

/-- Scalar multiplication (THREE.Vector2.multiplyScalar). -/
def Vec2.multiplyScalar (a : Vec2) (k : ℝ) : Vec2 := ⟨a.x * k, a.y * k⟩

/-- Scalar division (THREE.Vector2.divideScalar). -/
def Vec2.divideScalar (a : Vec2) (k : ℝ) : Vec2 := ⟨a.x / k, a.y / k⟩

/-- Squared length, as written inline in the force loop: r.x*r.x + r.y*r.y. -/
def Vec2.lengthSq (a : Vec2) : ℝ := a.x * a.x + a.y * a.y

/-- Euclidean length (THREE.Vector2.length). -/
noncomputable def Vec2.length (a : Vec2) : ℝ := Real.sqrt a.lengthSq

/-- The zero vector, new THREE.Vector2(0, 0). -/
def Vec2.zero : Vec2 := ⟨0, 0⟩

/-- Componentwise negation, used to state Newton-third-law symmetry. -/
def Vec2.neg (a : Vec2) : Vec2 := ⟨-a.x, -a.y⟩

/-- Mutable physical state of one point mass (class Body, src/2d.js lines 5-19). -/
@[ext]
structure Body where
  pos : Vec2
  vel : Vec2
  acc : Vec2
  mass : ℝ

/-- The Body constructor: acceleration starts as the zero vector
(src/2d.js line 9). -/
def mkBody (pos vel : Vec2) (mass : ℝ) : Body := ⟨pos, vel, Vec2.zero, mass⟩

/-- One integration update (Body.update, src/2d.js lines 14-18): the position
is advanced with the velocity from before the update, then the velocity with
the accumulated acceleration, then the acceleration is reset to zero. -/
def Body.update (b : Body) (dt : ℝ) : Body :=
  { b with
    pos := b.pos.add (b.vel.multiplyScalar dt)
    vel := b.vel.add (b.acc.multiplyScalar dt)
    acc := Vec2.zero }

/-- Guard constant named min in the source (src/2d.js line 41). -/
def minEps : ℝ := 0.0001

/-- Divisor of the force direction for a pair at positions p1, p2:
max(magSq, minEps) * mag, with mag = sqrt(magSq) floored at 1
(src/2d.js lines 85-91). -/
noncomputable def denom (p1 p2 : Vec2) : ℝ :=
  let r := p2.sub p1
  let magSq := r.x * r.x + r.y * r.y
  let mag0 := Real.sqrt magSq
  let mag := if mag0 < 1 then 1 else mag0
  max magSq minEps * mag

/-- The vector tmp of the force loop: r divided by the guarded denominator
(src/2d.js line 91). -/
noncomputable def tmpForce (p1 p2 : Vec2) : Vec2 :=
  (p2.sub p1).divideScalar (denom p1 p2)

/-- One inner-loop iteration of the force accumulation (src/2d.js lines
85-95): body i gains tmp * mass_j, body j loses tmp * mass_i, on the
acceleration fields only. -/
noncomputable def pairStep (bs : List Body) (i j : ℕ) : List Body :=
  match bs[i]?, bs[j]? with
  | some bi, some bj =>
      let t := tmpForce bi.pos bj.pos
      (bs.set i { bi with acc := bi.acc.add (t.multiplyScalar bj.mass) }).set j
        { bj with acc := bj.acc.sub (t.multiplyScalar bi.mass) }
  | _, _ => bs

/-- The double loop over all pairs i < j (src/2d.js lines 78-97). -/
noncomputable def accumulateForces (bs : List Body) : List Body :=
  (List.range bs.length).foldl
    (fun a i => (List.range' (i + 1) (bs.length - (i + 1))).foldl
      (fun a2 j => pairStep a2 i j) a)
    bs

/-- Boundary policy of the bounded variant (src/2d.js lines 104-105): per
axis, a coordinate at or beyond the wall at 3 or -3 negates that velocity
component; the position is left untouched. -/
noncomputable def applyBoundary (b : Body) : Body :=
  let b1 := if b.pos.x ≤ -3 ∨ 3 ≤ b.pos.x then { b with vel := ⟨-b.vel.x, b.vel.y⟩ } else b
  if b1.pos.y ≤ -3 ∨ 3 ≤ b1.pos.y then { b1 with vel := ⟨b1.vel.x, -b1.vel.y⟩ } else b1

/-- One simulation step of the bounded variant (the physics part of animate,
src/2d.js lines 76-106): accumulate all pairwise forces, then for each body
integrate and apply the boundary policy. -/
noncomputable def step (dt : ℝ) (bs : List Body) : List Body :=
  (accumulateForces bs).map fun b => applyBoundary (b.update dt)

/-- Iterated simulation steps. -/
noncomputable def stepN (dt : ℝ) : ℕ → List Body → List Body
  | 0, bs => bs
  | n + 1, bs => step dt (stepN dt n bs)

/-- Strictly inside the square domain on both axes. -/
def insideBox (p : Vec2) : Prop := -3 < p.x ∧ p.x < 3 ∧ -3 < p.y ∧ p.y < 3

/-- Spatial vector, mirroring THREE.Vector3 as used by the 3D variant. -/
@[ext]
structure Vec3 where
  x : ℝ
  y : ℝ
  z : ℝ

/-- Componentwise addition (THREE.Vector3.add). -/
def Vec3.add (a b : Vec3) : Vec3 := ⟨a.x + b.x, a.y + b.y, a.z + b.z⟩

/-- Scalar multiplication (THREE.Vector3.multiplyScalar). -/
def Vec3.multiplyScalar (a : Vec3) (k : ℝ) : Vec3 := ⟨a.x * k, a.y * k, a.z * k⟩

/-- The zero vector, new THREE.Vector3(0, 0, 0). -/
def Vec3.zero : Vec3 := ⟨0, 0, 0⟩

/-- Body of the unbounded 3D variant (src/unnamed/part_000 lines 5-18). -/
@[ext]
structure Body3 where
  pos : Vec3
  vel : Vec3
  acc : Vec3
  mass : ℝ

/-- One integration update of the 3D variant (src/unnamed/part_000 lines
13-17), identical in shape to the 2D one. -/
def Body3.update (b : Body3) (dt : ℝ) : Body3 :=
  { b with
    pos := b.pos.add (b.vel.multiplyScalar dt)
    vel := b.vel.add (b.acc.multiplyScalar dt)
    acc := Vec3.zero }

/-- Outcome of one call of randDisc (src/2d.js lines 22-26), as a function of
the two sampled values theta and r. -/
noncomputable def randDisc (theta r : ℝ) : Vec2 :=
  ⟨Real.cos theta * r, Real.sin theta * r⟩

/-- The constant velSum of the initialization (src/2d.js line 52): the
mass-weighted velocity sum divided by the body count. -/
def velSum (bs : List Body) : Vec2 :=
  (bs.foldl (fun s b => s.add (b.vel.multiplyScalar b.mass)) Vec2.zero).divideScalar
    bs.length

/-- The constant posSum of the initialization (src/2d.js line 53): the
mass-weighted position sum divided by the body count. -/
def posSum (bs : List Body) : Vec2 :=
  (bs.foldl (fun s b => s.add (b.pos.multiplyScalar b.mass)) Vec2.zero).divideScalar
    bs.length

/-- The centering pass (src/2d.js lines 55-58): subtract velSum from every
velocity and posSum from every position. -/
def centerBodies (bs : List Body) : List Body :=
  bs.map fun b => { b with vel := b.vel.sub (velSum bs), pos := b.pos.sub (posSum bs) }

/-- The constant maxRadius (src/2d.js line 60): Math.max over the position
lengths; 0 stands in for the empty spread, and lengths are nonnegative. -/
noncomputable def maxRadius (bs : List Body) : ℝ :=
  (bs.map fun b => b.pos.length).foldl max 0

/-- The rescaling pass (src/2d.js lines 61-63): divide every position by
maxRadius. -/
noncomputable def normalizeBodies (bs : List Body) : List Body :=
  bs.map fun b => { b with pos := b.pos.divideScalar (maxRadius bs) }

/-- The full one-time initialization after sampling (src/2d.js lines 51-63):
centering, then rescaling. -/
noncomputable def initBodies (bs : List Body) : List Body :=
  normalizeBodies (centerBodies bs)

/-- Concrete sampling outcome used for claim C1: all 100 bodies drawn at
angle 0 and radius one half, in the reference configuration mass = 2. -/
noncomputable def c1Body : Body :=
  mkBody (randDisc 0 (1 / 2)) ((randDisc 0 (1 / 2)).multiplyScalar 0.002) 2

/-- The reference population: n = 100 copies of the sampled body. -/
noncomputable def c1Bodies : List Body := List.replicate 100 c1Body

/-- The body of the C1 population after the centering pass. -/
def c1Centered : Body := ⟨⟨-(1 / 2), 0⟩, ⟨-(1 / 1000), 0⟩, ⟨0, 0⟩, 2⟩

/-- The body of the C1 population after centering and rescaling. -/
def c1Final : Body := ⟨⟨-1, 0⟩, ⟨-(1 / 1000), 0⟩, ⟨0, 0⟩, 2⟩

/-- First body of the two-body example of claim C2. -/
def c2BodyA : Body := mkBody ⟨-1, 0⟩ ⟨0, 0⟩ 1

/-- Second body of the two-body example of claim C2. -/
def c2BodyB : Body := mkBody ⟨1, 0⟩ ⟨0, 0⟩ 1

/-- The two-body configuration of claim C2. -/
def c2Bodies : List Body := [c2BodyA, c2BodyB]

/-- Single body used against claim C8: it crosses the wall in one step. -/
def c8B : Body := mkBody ⟨0, 0⟩ ⟨4, 0⟩ 1

/-- Single body used for the amended claim C8, staying inside the box. -/
def c8W : Body := mkBody ⟨0, 0⟩ ⟨1, 0⟩ 1

/-- Body outside the box on both axes, used for the claim C5 witness. -/
def c5B : Body := mkBody ⟨4, -5⟩ ⟨1, 2⟩ 1

/-- Body with a nonzero accumulated acceleration, used for the claim C3
witness. -/
def c3W : Body := ⟨⟨0, 0⟩, ⟨0, 0⟩, ⟨1, 0⟩, 1⟩

/-- Frame relation for the accumulation pass: same length, and positions,
velocities and masses unchanged at every index. -/
def Preserves (bs cs : List Body) : Prop :=
  cs.length = bs.length ∧
  ∀ (i : ℕ) (bi ci : Body), bs[i]? = some bi → cs[i]? = some ci →
    ci.pos = bi.pos ∧ ci.vel = bi.vel ∧ ci.mass = bi.mass

/-- Closed form of the boundary policy: each velocity component is negated
exactly when its axis condition holds, and nothing else changes. -/
lemma applyBoundary_eq (b : Body) :
    applyBoundary b =
      { b with vel :=
          ⟨if b.pos.x ≤ -3 ∨ 3 ≤ b.pos.x then -b.vel.x else b.vel.x,
           if b.pos.y ≤ -3 ∨ 3 ≤ b.pos.y then -b.vel.y else b.vel.y⟩ } := by
  have hpos : (if b.pos.x ≤ -3 ∨ 3 ≤ b.pos.x
      then ({ b with vel := (⟨-b.vel.x, b.vel.y⟩ : Vec2) } : Body) else b).pos.y
        = b.pos.y := by
    split_ifs <;> rfl
  simp only [applyBoundary]
  simp only [hpos]
  split_ifs <;> rfl

/-- The boundary policy never changes the position. -/
lemma applyBoundary_pos (b : Body) : (applyBoundary b).pos = b.pos := by
  rw [applyBoundary_eq]

/-- The boundary policy never changes the acceleration. -/
lemma applyBoundary_acc (b : Body) : (applyBoundary b).acc = b.acc := by
  rw [applyBoundary_eq]

/-- The boundary policy never changes the mass. -/
lemma applyBoundary_mass (b : Body) : (applyBoundary b).mass = b.mass := by
  rw [applyBoundary_eq]

/-- Every body coming out of a step carries zero acceleration. -/
lemma mem_step_acc (dt : ℝ) (bs : List Body) : ∀ b ∈ step dt bs, b.acc = Vec2.zero := by
  intro b hb
  simp only [step, List.mem_map] at hb
  obtain ⟨a, -, rfl⟩ := hb
  rw [applyBoundary_acc]
  rfl

/-- Claim C3: one integration update moves the position by the pre-update
velocity times dt, then the velocity by the accumulated acceleration times
dt, then resets the acceleration to zero, in both variants; the position
update precedes the velocity update, so whenever the acceleration makes the
two orderings differ, the result does not match explicit Euler. -/
theorem C3_update_symplectic (b : Body) (b3 : Body3) (dt : ℝ) :
    ((b.update dt).pos = b.pos.add (b.vel.multiplyScalar dt) ∧
     (b.update dt).vel = b.vel.add (b.acc.multiplyScalar dt) ∧
     (b.update dt).acc = Vec2.zero ∧ (b.update dt).mass = b.mass) ∧
    ((b3.update dt).pos = b3.pos.add (b3.vel.multiplyScalar dt) ∧
     (b3.update dt).vel = b3.vel.add (b3.acc.multiplyScalar dt) ∧
     (b3.update dt).acc = Vec3.zero ∧ (b3.update dt).mass = b3.mass) ∧
    (b.acc.x * (dt * dt) ≠ 0 →
      (b.update dt).pos ≠ b.pos.add ((b.update dt).vel.multiplyScalar dt)) := by
  refine ⟨⟨rfl, rfl, rfl, rfl⟩, ⟨rfl, rfl, rfl, rfl⟩, ?_⟩
  intro h heq
  apply h
  have hx := congrArg Vec2.x heq
  simp only [Body.update, Vec2.add, Vec2.multiplyScalar] at hx
  nlinarith [hx]

/-- Witness for claim C3 at a concrete body with acceleration (1,0). -/
theorem C3_witness :
    (c3W.update 1).pos ≠ c3W.pos.add ((c3W.update 1).vel.multiplyScalar 1) :=
  (C3_update_symplectic c3W ⟨Vec3.zero, Vec3.zero, Vec3.zero, 1⟩ 1).2.2
    (by norm_num [c3W])

/-- Claim C6: the divisor of the force direction is at least 1e-4 and
strictly positive for every pair of positions, coincident ones included. -/
theorem C6_denom_guarded (p1 p2 : Vec2) :
    (0.0001 : ℝ) ≤ denom p1 p2 ∧ 0 < denom p1 p2 := by
  have key : (0.0001 : ℝ) ≤ denom p1 p2 := by
    simp only [denom]
    have hmag : (1 : ℝ) ≤
        (if Real.sqrt ((p2.sub p1).x * (p2.sub p1).x + (p2.sub p1).y * (p2.sub p1).y) < 1
          then 1
          else Real.sqrt ((p2.sub p1).x * (p2.sub p1).x + (p2.sub p1).y * (p2.sub p1).y)) := by
      split_ifs with h
      · exact le_refl 1
      · exact le_of_not_lt h
    have hmax : (0.0001 : ℝ) ≤
        max ((p2.sub p1).x * (p2.sub p1).x + (p2.sub p1).y * (p2.sub p1).y) minEps := by
      refine le_trans (le_of_eq ?_) (le_max_right _ _)
      norm_num [minEps]
    calc (0.0001 : ℝ) = 0.0001 * 1 := by norm_num
      _ ≤ max ((p2.sub p1).x * (p2.sub p1).x + (p2.sub p1).y * (p2.sub p1).y) minEps *
            (if Real.sqrt ((p2.sub p1).x * (p2.sub p1).x + (p2.sub p1).y * (p2.sub p1).y) < 1
              then 1
              else Real.sqrt ((p2.sub p1).x * (p2.sub p1).x + (p2.sub p1).y * (p2.sub p1).y)) :=
          mul_le_mul hmax hmag (by norm_num) (le_trans (by norm_num) hmax)
  exact ⟨key, lt_of_lt_of_le (by norm_num) key⟩

/-- Claim C9: the step operation is deterministic; two runs from equal
initial collections with equal dt agree after every one of the first N
steps. -/
theorem C9_determinism (bs1 bs2 : List Body) (dt1 dt2 : ℝ) (N : ℕ)
    (hbs : bs1 = bs2) (hdt : dt1 = dt2) :
    ∀ k, k ≤ N → stepN dt1 k bs1 = stepN dt2 k bs2 := by
  subst hbs
  subst hdt
  intro k _
  rfl

/-- Witness for claim C9 on a concrete one-body collection. -/
theorem C9_witness : stepN (1 : ℝ) 2 [c8W] = stepN (1 : ℝ) 2 [c8W] :=
  C9_determinism [c8W] [c8W] 1 1 2 rfl rfl 2 (le_refl 2)

/-- Claim C5: the boundary phase negates exactly the velocity component of
each axis whose coordinate is at or beyond 3 in absolute value, leaves the
position, acceleration and mass untouched, and is a no-op on the velocity of
a body strictly inside the box. -/
theorem C5_boundary_policy (b : Body) :
    (applyBoundary b).pos = b.pos ∧ (applyBoundary b).acc = b.acc ∧
    (applyBoundary b).mass = b.mass ∧
    ((b.pos.x ≤ -3 ∨ 3 ≤ b.pos.x) → (applyBoundary b).vel.x = -b.vel.x) ∧
    ((b.pos.y ≤ -3 ∨ 3 ≤ b.pos.y) → (applyBoundary b).vel.y = -b.vel.y) ∧
    (insideBox b.pos → (applyBoundary b).vel = b.vel) := by
  refine ⟨applyBoundary_pos b, applyBoundary_acc b, applyBoundary_mass b, ?_, ?_, ?_⟩
  · intro hc
    rw [applyBoundary_eq]
    simp [if_pos hc]
  · intro hc
    rw [applyBoundary_eq]
    simp [if_pos hc]
  · rintro ⟨hx1, hx2, hy1, hy2⟩
    have h1 : ¬(b.pos.x ≤ -3 ∨ 3 ≤ b.pos.x) := by
      push_neg
      exact ⟨by linarith, by linarith⟩
    have h2 : ¬(b.pos.y ≤ -3 ∨ 3 ≤ b.pos.y) := by
      push_neg
      exact ⟨by linarith, by linarith⟩
    rw [applyBoundary_eq]
    simp only [if_neg h1, if_neg h2]

/-- Witness for claim C5 at a body sitting outside the box on both axes. -/
theorem C5_witness :
    (applyBoundary c5B).vel.x = -c5B.vel.x ∧ (applyBoundary c5B).vel.y = -c5B.vel.y ∧
    (applyBoundary c5B).pos = c5B.pos :=
  ⟨(C5_boundary_policy c5B).2.2.2.1 (Or.inr (by norm_num [c5B, mkBody])),
   (C5_boundary_policy c5B).2.2.2.2.1 (Or.inl (by norm_num [c5B, mkBody])),
   (C5_boundary_policy c5B).1⟩

/-- Claim C7: acceleration is the zero vector at construction, right after
every integration update, and hence at the start of every force accumulation
of every step of a run that begins with freshly constructed bodies. -/
theorem C7_acc_zero_invariant :
    (∀ (p v : Vec2) (m : ℝ), (mkBody p v m).acc = Vec2.zero) ∧
    (∀ (b : Body) (dt : ℝ), (b.update dt).acc = Vec2.zero) ∧
    ∀ (dt : ℝ) (n : ℕ) (bs : List Body), (∀ b ∈ bs, b.acc = Vec2.zero) →
      ∀ b ∈ stepN dt n bs, b.acc = Vec2.zero := by
  refine ⟨fun _ _ _ => rfl, fun _ _ => rfl, fun dt n bs h => ?_⟩
  induction n with
  | zero => exact h
  | succ n _ => exact mem_step_acc dt (stepN dt n bs)

/-- Witness for claim C7 on a concrete freshly constructed collection. -/
theorem C7_witness : (mkBody ⟨1, 2⟩ ⟨3, 4⟩ 5).acc = Vec2.zero :=
  C7_acc_zero_invariant.2.2 1 0 [mkBody ⟨1, 2⟩ ⟨3, 4⟩ 5]
    (by intro b hb; rw [List.mem_singleton] at hb; subst hb; rfl) _
    (by simp [stepN])

/-- Unfolding of pairStep when both indices resolve. -/
lemma pairStep_of_get (bs : List Body) (i j : ℕ) (bi bj : Body)
    (hi : bs[i]? = some bi) (hj : bs[j]? = some bj) :
    pairStep bs i j =
      (bs.set i
        { bi with acc := bi.acc.add ((tmpForce bi.pos bj.pos).multiplyScalar bj.mass) }).set j
        { bj with acc := bj.acc.sub ((tmpForce bi.pos bj.pos).multiplyScalar bi.mass) } := by
  unfold pairStep
  rw [hi, hj]

/-- The identity is a frame for any list. -/
lemma preserves_refl (bs : List Body) : Preserves bs bs := by
  refine ⟨rfl, fun i bi ci h1 h2 => ?_⟩
  rw [h1] at h2
  injection h2 with h
  subst h
  exact ⟨rfl, rfl, rfl⟩

/-- The frame relation composes. -/
lemma preserves_trans {as bs cs : List Body}
    (h1 : Preserves as bs) (h2 : Preserves bs cs) : Preserves as cs := by
  obtain ⟨l1, f1⟩ := h1
  obtain ⟨l2, f2⟩ := h2
  refine ⟨l2.trans l1, fun i ai ci ha hc => ?_⟩
  obtain ⟨hia, -⟩ := List.getElem?_eq_some_iff.mp ha
  have hib : i < bs.length := l1 ▸ hia
  have hb : bs[i]? = some bs[i] := by simp [hib]
  obtain ⟨p1, v1, m1⟩ := f1 i ai bs[i] ha hb
  obtain ⟨p2, v2, m2⟩ := f2 i bs[i] ci hb hc
  exact ⟨p2.trans p1, v2.trans v1, m2.trans m1⟩

/-- One pair interaction only touches acceleration fields. -/
lemma preserves_pairStep (bs : List Body) (i j : ℕ) : Preserves bs (pairStep bs i j) := by
  cases hbi : bs[i]? with
  | none =>
      unfold pairStep
      rw [hbi]
      exact preserves_refl bs
  | some bi =>
      cases hbj : bs[j]? with
      | none =>
          unfold pairStep
          rw [hbi, hbj]
          exact preserves_refl bs
      | some bj =>
          rw [pairStep_of_get bs i j bi bj hbi hbj]
          have hjlen : j < bs.length := (List.getElem?_eq_some_iff.mp hbj).1
          have hilen : i < bs.length := (List.getElem?_eq_some_iff.mp hbi).1
          refine ⟨by simp, fun k bk ck hk hck => ?_⟩
          by_cases hkj : j = k
          · subst hkj
            rw [List.getElem?_set_self (by simpa using hjlen)] at hck
            rw [hbj] at hk
            injection hck with hck
            injection hk with hk
            subst hck
            subst hk
            exact ⟨rfl, rfl, rfl⟩
          · rw [List.getElem?_set_ne hkj] at hck
            by_cases hki : i = k
            · subst hki
              rw [List.getElem?_set_self hilen] at hck
              rw [hbi] at hk
              injection hck with hck
              injection hk with hk
              subst hck
              subst hk
              exact ⟨rfl, rfl, rfl⟩
            · rw [List.getElem?_set_ne hki] at hck
              rw [hk] at hck
              injection hck with hck
              subst hck
              exact ⟨rfl, rfl, rfl⟩

/-- A fold over frame-preserving operations is frame-preserving. -/
lemma preserves_foldl (f : List Body → ℕ → List Body)
    (hf : ∀ a k, Preserves a (f a k)) :
    ∀ (l : List ℕ) (bs : List Body), Preserves bs (l.foldl f bs) := by
  intro l
  induction l with
  | nil => intro bs; exact preserves_refl bs
  | cons k t ih => intro bs; exact preserves_trans (hf bs k) (ih (f bs k))

/-- The whole accumulation pass is frame-preserving. -/
lemma preserves_accumulate (bs : List Body) : Preserves bs (accumulateForces bs) := by
  unfold accumulateForces
  exact preserves_foldl _
    (fun a i => preserves_foldl (fun a2 j => pairStep a2 i j)
      (fun a2 j => preserves_pairStep a2 i j) _ a)
    (List.range bs.length) bs

/-- Claim C10: the accumulation pass modifies only acceleration fields;
length, positions, velocities and masses are unchanged at every index. -/
theorem C10_accumulate_frame (bs : List Body) :
    (accumulateForces bs).length = bs.length ∧
    ∀ (i : ℕ) (bi bi' : Body), bs[i]? = some bi → (accumulateForces bs)[i]? = some bi' →
      bi'.pos = bi.pos ∧ bi'.vel = bi.vel ∧ bi'.mass = bi.mass :=
  preserves_accumulate bs

/-- Claim C4: the pairwise contribution obeys the Newton third law; the
acceleration gained by body i times its mass is the exact negation of the
acceleration gained by body j times its mass. -/
theorem C4_newton_third_law (bs : List Body) (i j : ℕ) (bi bj bi' bj' : Body)
    (hij : i ≠ j) (hi : bs[i]? = some bi) (hj : bs[j]? = some bj)
    (hmi : 0 < bi.mass) (hmj : 0 < bj.mass)
    (hi' : (pairStep bs i j)[i]? = some bi') (hj' : (pairStep bs i j)[j]? = some bj') :
    (bi'.acc.sub bi.acc).multiplyScalar bi.mass =
      Vec2.neg ((bj'.acc.sub bj.acc).multiplyScalar bj.mass) := by
  rw [pairStep_of_get bs i j bi bj hi hj] at hi' hj'
  have hilen : i < bs.length := (List.getElem?_eq_some_iff.mp hi).1
  have hjlen : j < bs.length := (List.getElem?_eq_some_iff.mp hj).1
  rw [List.getElem?_set_ne (Ne.symm hij), List.getElem?_set_self hilen] at hi'
  rw [List.getElem?_set_self (by simpa using hjlen)] at hj'
  injection hi' with hi'
  injection hj' with hj'
  subst hi'
  subst hj'
  ext
  · simp only [Vec2.add, Vec2.sub, Vec2.multiplyScalar, Vec2.neg]
    ring
  · simp only [Vec2.add, Vec2.sub, Vec2.multiplyScalar, Vec2.neg]
    ring

/-- Square root of four. -/
lemma sqrt_four : Real.sqrt 4 = 2 := by
  rw [show (4 : ℝ) = 2 ^ 2 by norm_num, Real.sqrt_sq (by norm_num : (0 : ℝ) ≤ 2)]

/-- The guarded divisor for the two-body example is 8. -/
lemma denom_c2 : denom c2BodyA.pos c2BodyB.pos = 8 := by
  show denom ⟨-1, 0⟩ ⟨1, 0⟩ = 8
  simp only [denom, Vec2.sub]
  norm_num [minEps, sqrt_four]

/-- The force direction for the two-body example is a quarter along x. -/
lemma tmp_c2 : tmpForce c2BodyA.pos c2BodyB.pos = ⟨0.25, 0⟩ := by
  simp only [tmpForce, denom_c2]
  show Vec2.divideScalar ⟨1 - -1, 0 - 0⟩ 8 = _
  simp only [Vec2.divideScalar]
  norm_num

/-- The single pair interaction of the two-body example. -/
lemma pairStep_c2 :
    pairStep c2Bodies 0 1 =
      [{ c2BodyA with acc := ⟨0.25, 0⟩ }, { c2BodyB with acc := ⟨-0.25, 0⟩ }] := by
  rw [pairStep_of_get c2Bodies 0 1 c2BodyA c2BodyB rfl rfl, tmp_c2]
  simp only [c2Bodies, c2BodyA, c2BodyB, mkBody, List.set_cons_zero, List.set_cons_succ,
    Vec2.zero, Vec2.add, Vec2.sub, Vec2.multiplyScalar]
  norm_num

/-- The accumulation pass of the two-body example. -/
lemma accumulate_c2 :
    accumulateForces c2Bodies =
      [{ c2BodyA with acc := ⟨0.25, 0⟩ }, { c2BodyB with acc := ⟨-0.25, 0⟩ }] := by
  show (List.range 2).foldl _ c2Bodies = _
  rw [show List.range 2 = [0, 1] from rfl]
  simp only [List.foldl_cons, List.foldl_nil]
  rw [show List.range' 1 (c2Bodies.length - 1) = [1] from rfl,
    show List.range' 2 (c2Bodies.length - 2) = ([] : List ℕ) from rfl]
  simp only [List.foldl_cons, List.foldl_nil]
  exact pairStep_c2

/-- The full step of the two-body example. -/
lemma step_c2 :
    step 0.01 c2Bodies =
      [{ c2BodyA with vel := ⟨0.0025, 0⟩ }, { c2BodyB with vel := ⟨-0.0025, 0⟩ }] := by
  rw [step, accumulate_c2]
  simp only [List.map_cons, List.map_nil]
  rw [show ({ c2BodyA with acc := (⟨0.25, 0⟩ : Vec2) } : Body).update 0.01 =
      ({ c2BodyA with vel := ⟨0.0025, 0⟩ } : Body) by
    simp only [Body.update, Vec2.add, Vec2.multiplyScalar, c2BodyA, mkBody, Vec2.zero]
    norm_num]
  rw [show ({ c2BodyB with acc := (⟨-0.25, 0⟩ : Vec2) } : Body).update 0.01 =
      ({ c2BodyB with vel := ⟨-0.0025, 0⟩ } : Body) by
    simp only [Body.update, Vec2.add, Vec2.multiplyScalar, c2BodyB, mkBody, Vec2.zero]
    norm_num]
  rw [applyBoundary_eq, applyBoundary_eq]
  norm_num [c2BodyA, c2BodyB, mkBody]

/-- Claim C2: in the two-body example the accumulated acceleration on the
body at (-1,0) is (0.25,0), and after one step with dt = 0.01 its velocity
is (0.0025,0) while its position is unchanged at (-1,0), because the
position update used the previous zero velocity; the other body is updated
mirror-symmetrically. -/
theorem C2_two_body_example :
    accumulateForces c2Bodies =
      [{ c2BodyA with acc := ⟨0.25, 0⟩ }, { c2BodyB with acc := ⟨-0.25, 0⟩ }] ∧
    step 0.01 c2Bodies =
      [{ c2BodyA with vel := ⟨0.0025, 0⟩ }, { c2BodyB with vel := ⟨-0.0025, 0⟩ }] :=
  ⟨accumulate_c2, step_c2⟩

/-- Witness for claim C4 on the concrete two-body pair. -/
theorem C4_witness :
    (({ c2BodyA with acc := (⟨0.25, 0⟩ : Vec2) } : Body).acc.sub
        c2BodyA.acc).multiplyScalar c2BodyA.mass =
      Vec2.neg ((({ c2BodyB with acc := (⟨-0.25, 0⟩ : Vec2) } : Body).acc.sub
        c2BodyB.acc).multiplyScalar c2BodyB.mass) :=
  C4_newton_third_law c2Bodies 0 1 c2BodyA c2BodyB
    { c2BodyA with acc := ⟨0.25, 0⟩ } { c2BodyB with acc := ⟨-0.25, 0⟩ }
    (by norm_num) rfl rfl (by norm_num [c2BodyA, mkBody]) (by norm_num [c2BodyB, mkBody])
    (by rw [pairStep_c2]; rfl) (by rw [pairStep_c2]; rfl)

/-- The accumulation pass over a single body does nothing. -/
lemma accumulateForces_singleton (b : Body) : accumulateForces [b] = [b] := rfl

/-- A step on a single body with zero acceleration that stays strictly
inside the box just translates the position by velocity times dt. -/
lemma step_singleton (dt : ℝ) (b : Body) (hacc : b.acc = Vec2.zero)
    (hin : insideBox (b.pos.add (b.vel.multiplyScalar dt))) :
    step dt [b] = [{ b with pos := b.pos.add (b.vel.multiplyScalar dt) }] := by
  obtain ⟨h1, h2, h3, h4⟩ := hin
  have hx : ¬((b.pos.add (b.vel.multiplyScalar dt)).x ≤ -3 ∨
      3 ≤ (b.pos.add (b.vel.multiplyScalar dt)).x) := by
    push_neg
    exact ⟨by linarith, by linarith⟩
  have hy : ¬((b.pos.add (b.vel.multiplyScalar dt)).y ≤ -3 ∨
      3 ≤ (b.pos.add (b.vel.multiplyScalar dt)).y) := by
    push_neg
    exact ⟨by linarith, by linarith⟩
  rw [step, accumulateForces_singleton]
  simp only [List.map_cons, List.map_nil, List.cons.injEq, and_true]
  rw [show b.update dt =
      (⟨b.pos.add (b.vel.multiplyScalar dt), b.vel, Vec2.zero, b.mass⟩ : Body) by
    ext <;> simp [Body.update, hacc, Vec2.add, Vec2.multiplyScalar, Vec2.zero]]
  rw [applyBoundary_eq]
  simp only []
  rw [if_neg hx, if_neg hy]
  ext <;> simp [hacc, Vec2.zero]

/-- Counterexample to claim C8: a single body with zero acceleration whose
velocity is not constant across steps, because it crosses the wall and the
boundary policy negates its velocity component. -/
theorem C8_counterexample :
    stepN 1 1 [c8B] = [{ c8B with pos := ⟨4, 0⟩, vel := ⟨-4, 0⟩ }] ∧
    ({ c8B with pos := (⟨4, 0⟩ : Vec2), vel := (⟨-4, 0⟩ : Vec2) } : Body).vel ≠ c8B.vel ∧
    c8B.acc = Vec2.zero := by
  refine ⟨?_, ?_, rfl⟩
  · show step 1 (stepN 1 0 [c8B]) = _
    rw [show stepN (1 : ℝ) 0 [c8B] = [c8B] from rfl]
    rw [step, accumulateForces_singleton]
    simp only [List.map_cons, List.map_nil, List.cons.injEq, and_true]
    rw [show c8B.update 1 = (⟨⟨4, 0⟩, ⟨4, 0⟩, Vec2.zero, 1⟩ : Body) by
      ext <;> simp [Body.update, c8B, mkBody, Vec2.add, Vec2.multiplyScalar, Vec2.zero]]
    rw [applyBoundary_eq]
    norm_num [c8B, mkBody, Vec2.zero]
  · intro h
    have hx := congrArg Vec2.x h
    norm_num [c8B, mkBody] at hx

/-- Claim C8 (amended): with a single body of zero acceleration, as long as
every intermediate position stays strictly inside the box, the acceleration
stays zero, the velocity is constant and the position advances linearly in
the number of steps. -/
theorem C8_amended (b : Body) (dt : ℝ) (n : ℕ) (hacc : b.acc = Vec2.zero)
    (hin : ∀ k : ℕ, k ≤ n → insideBox (b.pos.add (b.vel.multiplyScalar ((k : ℝ) * dt)))) :
    stepN dt n [b] = [{ b with pos := b.pos.add (b.vel.multiplyScalar ((n : ℝ) * dt)) }] := by
  induction n with
  | zero =>
      simp only [stepN, List.cons.injEq, and_true]
      ext <;> simp [Vec2.add, Vec2.multiplyScalar]
  | succ n ih =>
      have hb' : stepN dt n [b] =
          [{ b with pos := b.pos.add (b.vel.multiplyScalar ((n : ℝ) * dt)) }] :=
        ih fun k hk => hin k (Nat.le_succ_of_le hk)
      have heq : ({ b with pos := b.pos.add (b.vel.multiplyScalar ((n : ℝ) * dt)) } :
            Body).pos.add
          (({ b with pos := b.pos.add (b.vel.multiplyScalar ((n : ℝ) * dt)) } :
            Body).vel.multiplyScalar dt)
            = b.pos.add (b.vel.multiplyScalar (((n + 1 : ℕ) : ℝ) * dt)) := by
        ext <;> simp [Vec2.add, Vec2.multiplyScalar] <;> push_cast <;> ring
      show step dt (stepN dt n [b]) = _
      rw [hb',
        step_singleton dt { b with pos := b.pos.add (b.vel.multiplyScalar ((n : ℝ) * dt)) }
          hacc (by rw [heq]; exact hin (n + 1) (le_refl _)),
        heq]

/-- Witness for the amended claim C8: a body starting at the origin with
unit velocity stays inside the box for two unit steps and moves linearly. -/
theorem C8_witness :
    stepN (1 : ℝ) 2 [c8W] =
      [{ c8W with pos := c8W.pos.add (c8W.vel.multiplyScalar (((2 : ℕ) : ℝ) * 1)) }] :=
  C8_amended c8W 1 2 rfl (by
    intro k hk
    interval_cases k <;>
      norm_num [insideBox, c8W, mkBody, Vec2.add, Vec2.multiplyScalar])

/-- Closed form of the mass-weighted velocity fold. -/
lemma foldl_add_vel (l : List Body) : ∀ s : Vec2,
    l.foldl (fun s b => s.add (b.vel.multiplyScalar b.mass)) s =
      ⟨s.x + (l.map fun b => b.vel.x * b.mass).sum,
       s.y + (l.map fun b => b.vel.y * b.mass).sum⟩ := by
  induction l with
  | nil => intro s; ext <;> simp
  | cons b t ih =>
      intro s
      simp only [List.foldl_cons, List.map_cons, List.sum_cons, ih]
      ext <;> simp [Vec2.add, Vec2.multiplyScalar] <;> ring

/-- Closed form of the mass-weighted position fold. -/
lemma foldl_add_pos (l : List Body) : ∀ s : Vec2,
    l.foldl (fun s b => s.add (b.pos.multiplyScalar b.mass)) s =
      ⟨s.x + (l.map fun b => b.pos.x * b.mass).sum,
       s.y + (l.map fun b => b.pos.y * b.mass).sum⟩ := by
  induction l with
  | nil => intro s; ext <;> simp
  | cons b t ih =>
      intro s
      simp only [List.foldl_cons, List.map_cons, List.sum_cons, ih]
      ext <;> simp [Vec2.add, Vec2.multiplyScalar] <;> ring

/-- Componentwise closed form of velSum. -/
lemma velSum_eq (bs : List Body) :
    velSum bs = ⟨(bs.map fun b => b.vel.x * b.mass).sum / bs.length,
                 (bs.map fun b => b.vel.y * b.mass).sum / bs.length⟩ := by
  rw [velSum, foldl_add_vel]
  simp [Vec2.divideScalar, Vec2.zero]

/-- Componentwise closed form of posSum. -/
lemma posSum_eq (bs : List Body) :
    posSum bs = ⟨(bs.map fun b => b.pos.x * b.mass).sum / bs.length,
                 (bs.map fun b => b.pos.y * b.mass).sum / bs.length⟩ := by
  rw [posSum, foldl_add_pos]
  simp [Vec2.divideScalar, Vec2.zero]

/-- A centered mass-weighted sum over a population of mass 2. -/
lemma sum_centered (l : List Body) (g : Body → ℝ) (c : ℝ) (hm : ∀ b ∈ l, b.mass = 2) :
    (l.map fun b => (g b - c) * b.mass).sum
      = (l.map fun b => g b * b.mass).sum - (l.length : ℝ) * (2 * c) := by
  induction l with
  | nil => simp
  | cons b t ih =>
      have hb := hm b (List.mem_cons_self b t)
      have ht := ih fun x hx => hm x (List.mem_cons_of_mem b hx)
      simp only [List.map_cons, List.sum_cons, List.length_cons, ht, hb]
      push_cast
      ring

/-- A mass-weighted sum of scaled values factors the divisor out. -/
lemma sum_map_div_mul (l : List Body) (g : Body → ℝ) (c : ℝ) :
    (l.map fun b => g b / c * b.mass).sum = (l.map fun b => g b * b.mass).sum / c := by
  induction l with
  | nil => simp
  | cons b t ih =>
      simp only [List.map_cons, List.sum_cons, ih]
      ring

/-- A fold of max over values scaled by a nonnegative divisor. -/
lemma foldl_max_div (c : ℝ) (hc : 0 ≤ c) : ∀ (l : List ℝ) (s t : ℝ), t = s / c →
    (l.map fun a => a / c).foldl max t = l.foldl max s / c := by
  intro l
  induction l with
  | nil =>
      intro s t ht
      simpa using ht
  | cons a u ih =>
      intro s t ht
      simp only [List.map_cons, List.foldl_cons]
      exact ih (max s a) (max t (a / c)) (by rw [ht, max_div_div_right hc])

/-- A fold of max over a nonempty constant list. -/
lemma foldl_max_replicate (n : ℕ) (x : ℝ) (hn : n ≠ 0) : ∀ s : ℝ,
    (List.replicate n x).foldl max s = max s x := by
  induction n with
  | zero => exact absurd rfl hn
  | succ m ih =>
      intro s
      rw [List.replicate_succ, List.foldl_cons]
      cases Nat.eq_zero_or_pos m with
      | inl h0 => rw [h0]; rfl
      | inr hpos => rw [ih (Nat.pos_iff_ne_zero.mp hpos) (max s x), max_assoc, max_self]

/-- The initialization does not change the list length. -/
lemma length_init (bs : List Body) : (initBodies bs).length = bs.length := by
  simp [initBodies, normalizeBodies, centerBodies]

/-- The mass-weighted x velocities after initialization. -/
lemma map_init_velx (bs : List Body) :
    ((initBodies bs).map fun b => b.vel.x * b.mass)
      = bs.map fun b => (b.vel.x - (velSum bs).x) * b.mass := by
  simp only [initBodies, normalizeBodies, centerBodies, List.map_map]
  rfl

/-- The mass-weighted y velocities after initialization. -/
lemma map_init_vely (bs : List Body) :
    ((initBodies bs).map fun b => b.vel.y * b.mass)
      = bs.map fun b => (b.vel.y - (velSum bs).y) * b.mass := by
  simp only [initBodies, normalizeBodies, centerBodies, List.map_map]
  rfl

/-- The mass-weighted x positions after initialization. -/
lemma map_init_posx (bs : List Body) :
    ((initBodies bs).map fun b => b.pos.x * b.mass)
      = bs.map fun b =>
          (b.pos.x - (posSum bs).x) / maxRadius (centerBodies bs) * b.mass := by
  simp only [initBodies, normalizeBodies, centerBodies, List.map_map]
  rfl

/-- The mass-weighted y positions after initialization. -/
lemma map_init_posy (bs : List Body) :
    ((initBodies bs).map fun b => b.pos.y * b.mass)
      = bs.map fun b =>
          (b.pos.y - (posSum bs).y) / maxRadius (centerBodies bs) * b.mass := by
  simp only [initBodies, normalizeBodies, centerBodies, List.map_map]
  rfl

/-- The position lengths after initialization, before resolving lengths. -/
lemma map_init_length (bs : List Body) :
    ((initBodies bs).map fun b => b.pos.length)
      = (centerBodies bs).map fun b =>
          (b.pos.divideScalar (maxRadius (centerBodies bs))).length := by
  simp only [initBodies, normalizeBodies, List.map_map]
  rfl

/-- Length scales inversely with a positive scalar divisor. -/
lemma length_divideScalar (p : Vec2) (M : ℝ) (hM : 0 < M) :
    (p.divideScalar M).length = p.length / M := by
  simp only [Vec2.length, Vec2.divideScalar, Vec2.lengthSq]
  rw [div_mul_div_comm, div_mul_div_comm, div_add_div_same,
    Real.sqrt_div (add_nonneg (mul_self_nonneg p.x) (mul_self_nonneg p.y)) (M * M),
    Real.sqrt_mul_self (le_of_lt hM)]

/-- Witness for claim C10 on the concrete two-body collection. -/
theorem C10_witness :
    ({ c2BodyA with acc := (⟨0.25, 0⟩ : Vec2) } : Body).pos = c2BodyA.pos ∧
    ({ c2BodyA with acc := (⟨0.25, 0⟩ : Vec2) } : Body).vel = c2BodyA.vel ∧
    ({ c2BodyA with acc := (⟨0.25, 0⟩ : Vec2) } : Body).mass = c2BodyA.mass :=
  (C10_accumulate_frame c2Bodies).2 0 c2BodyA { c2BodyA with acc := ⟨0.25, 0⟩ }
    rfl (by rw [accumulate_c2]; rfl)

/-- Claim C1 (amended): after the one-time initialization with the reference
mass 2 on every body, the maximum position length is exactly 1, but the
post-initialization weighted means are the negations of the raw sampled
ones: the mean of mass times velocity equals minus velSum and the mean of
mass times position equals minus posSum over maxRadius; these are close to
zero only for outcomes whose raw weighted means are, not for every outcome. -/
theorem C1_amended (bs : List Body)
    (hm : ∀ b ∈ bs, b.mass = 2) (hr : 0 < maxRadius (centerBodies bs)) :
    velSum (initBodies bs) = Vec2.neg (velSum bs) ∧
    posSum (initBodies bs) =
      (Vec2.neg (posSum bs)).divideScalar (maxRadius (centerBodies bs)) ∧
    maxRadius (initBodies bs) = 1 := by
  have hne : bs ≠ [] := by
    intro h
    rw [h] at hr
    norm_num [maxRadius, centerBodies] at hr
  have hn : (bs.length : ℝ) ≠ 0 :=
    Nat.cast_ne_zero.mpr fun h => hne (List.length_eq_zero.mp h)
  have hvx : (velSum bs).x = (bs.map fun b => b.vel.x * b.mass).sum / bs.length := by
    rw [velSum_eq]
  have hvy : (velSum bs).y = (bs.map fun b => b.vel.y * b.mass).sum / bs.length := by
    rw [velSum_eq]
  have hpx : (posSum bs).x = (bs.map fun b => b.pos.x * b.mass).sum / bs.length := by
    rw [posSum_eq]
  have hpy : (posSum bs).y = (bs.map fun b => b.pos.y * b.mass).sum / bs.length := by
    rw [posSum_eq]
  refine ⟨?_, ?_, ?_⟩
  · have hax : (velSum (initBodies bs)).x = -(velSum bs).x := by
      have h1 : (velSum (initBodies bs)).x
          = (bs.map fun b => (b.vel.x - (velSum bs).x) * b.mass).sum / (bs.length : ℝ) := by
        rw [velSum_eq]
        simp only [map_init_velx, length_init]
      rw [h1, sum_centered bs (fun b => b.vel.x) ((velSum bs).x) hm, hvx]
      field_simp
      ring
    have hay : (velSum (initBodies bs)).y = -(velSum bs).y := by
      have h1 : (velSum (initBodies bs)).y
          = (bs.map fun b => (b.vel.y - (velSum bs).y) * b.mass).sum / (bs.length : ℝ) := by
        rw [velSum_eq]
        simp only [map_init_vely, length_init]
      rw [h1, sum_centered bs (fun b => b.vel.y) ((velSum bs).y) hm, hvy]
      field_simp
      ring
    exact Vec2.ext hax hay
  · have hbx : (posSum (initBodies bs)).x
        = -(posSum bs).x / maxRadius (centerBodies bs) := by
      have h1 : (posSum (initBodies bs)).x
          = (bs.map fun b =>
              (b.pos.x - (posSum bs).x) / maxRadius (centerBodies bs) * b.mass).sum /
            (bs.length : ℝ) := by
        rw [posSum_eq]
        simp only [map_init_posx, length_init]
      rw [h1, sum_map_div_mul bs (fun b => b.pos.x - (posSum bs).x) _,
        sum_centered bs (fun b => b.pos.x) ((posSum bs).x) hm, hpx]
      field_simp
      ring
    have hby : (posSum (initBodies bs)).y
        = -(posSum bs).y / maxRadius (centerBodies bs) := by
      have h1 : (posSum (initBodies bs)).y
          = (bs.map fun b =>
              (b.pos.y - (posSum bs).y) / maxRadius (centerBodies bs) * b.mass).sum /
            (bs.length : ℝ) := by
        rw [posSum_eq]
        simp only [map_init_posy, length_init]
      rw [h1, sum_map_div_mul bs (fun b => b.pos.y - (posSum bs).y) _,
        sum_centered bs (fun b => b.pos.y) ((posSum bs).y) hm, hpy]
      field_simp
      ring
    exact Vec2.ext hbx hby
  · have hmap : ((initBodies bs).map fun b => b.pos.length)
        = ((centerBodies bs).map fun b => b.pos.length).map
            (fun a => a / maxRadius (centerBodies bs)) := by
      rw [map_init_length, List.map_map]
      exact List.map_congr_left fun b _ => length_divideScalar b.pos _ hr
    have hfold : maxRadius (initBodies bs)
        = maxRadius (centerBodies bs) / maxRadius (centerBodies bs) := by
      rw [show maxRadius (initBodies bs)
          = ((initBodies bs).map fun b => b.pos.length).foldl max 0 from rfl]
      rw [hmap]
      rw [foldl_max_div _ (le_of_lt hr) _ 0 0 (by rw [zero_div])]
      rfl
    rw [hfold, div_self (ne_of_gt hr)]

/-- Evaluation of the sampled C1 body. -/
lemma c1Body_eval : c1Body = ⟨⟨1 / 2, 0⟩, ⟨1 / 1000, 0⟩, ⟨0, 0⟩, 2⟩ := by
  simp only [c1Body, mkBody, randDisc, Vec2.multiplyScalar, Real.cos_zero, Real.sin_zero,
    Vec2.zero]
  norm_num

/-- The raw weighted mean velocity of the C1 population. -/
lemma velSum_c1 : velSum c1Bodies = ⟨1 / 500, 0⟩ := by
  rw [velSum_eq]
  simp only [c1Bodies, c1Body_eval, List.map_replicate, List.sum_replicate,
    List.length_replicate]
  norm_num [nsmul_eq_mul]

/-- The raw weighted mean position of the C1 population. -/
lemma posSum_c1 : posSum c1Bodies = ⟨1, 0⟩ := by
  rw [posSum_eq]
  simp only [c1Bodies, c1Body_eval, List.map_replicate, List.sum_replicate,
    List.length_replicate]
  norm_num [nsmul_eq_mul]

/-- The C1 population after the centering pass. -/
lemma centerBodies_c1 : centerBodies c1Bodies = List.replicate 100 c1Centered := by
  simp only [centerBodies, velSum_c1, posSum_c1]
  simp only [c1Bodies, c1Body_eval, List.map_replicate]
  congr 1
  ext <;> norm_num [Vec2.sub, c1Centered]

/-- The position length of the centered C1 body. -/
lemma c1Centered_len : c1Centered.pos.length = 1 / 2 := by
  show Real.sqrt _ = _
  rw [show c1Centered.pos.lengthSq = (1 / 2 : ℝ) * (1 / 2) by
    norm_num [c1Centered, Vec2.lengthSq]]
  exact Real.sqrt_mul_self (by norm_num)

/-- The rescaling radius of the C1 population. -/
lemma maxRadius_c1 : maxRadius (centerBodies c1Bodies) = 1 / 2 := by
  rw [centerBodies_c1]
  show (List.map _ _).foldl max 0 = _
  rw [List.map_replicate, c1Centered_len,
    foldl_max_replicate 100 (1 / 2) (by norm_num) 0]
  norm_num

/-- The C1 population after the full initialization. -/
lemma initBodies_c1 : initBodies c1Bodies = List.replicate 100 c1Final := by
  simp only [initBodies, normalizeBodies]
  rw [maxRadius_c1, centerBodies_c1, List.map_replicate]
  congr 1
  ext <;> norm_num [Vec2.divideScalar, c1Centered, c1Final]

/-- The post-initialization weighted mean velocity of the C1 population. -/
lemma velSum_init_c1 : velSum (initBodies c1Bodies) = ⟨-(1 / 500), 0⟩ := by
  rw [initBodies_c1, velSum_eq]
  simp only [List.map_replicate, List.sum_replicate, List.length_replicate]
  norm_num [c1Final, nsmul_eq_mul]

/-- The post-initialization weighted mean position of the C1 population. -/
lemma posSum_init_c1 : posSum (initBodies c1Bodies) = ⟨-2, 0⟩ := by
  rw [initBodies_c1, posSum_eq]
  simp only [List.map_replicate, List.sum_replicate, List.length_replicate]
  norm_num [c1Final, nsmul_eq_mul]

/-- Counterexample to claim C1: a valid sampling outcome of the reference
configuration, n = 100 and mass 2, for which the post-initialization mean of
mass times velocity is (-1/500, 0) and the mean of mass times position is
(-2, 0), both far outside any small epsilon around zero. -/
theorem C1_counterexample :
    c1Body = mkBody ⟨1 / 2, 0⟩ ⟨1 / 1000, 0⟩ 2 ∧
    velSum (initBodies c1Bodies) = ⟨-(1 / 500), 0⟩ ∧
    posSum (initBodies c1Bodies) = ⟨-2, 0⟩ ∧
    ¬|(velSum (initBodies c1Bodies)).x| ≤ 1 / 1000 ∧
    ¬|(posSum (initBodies c1Bodies)).x| ≤ 1 / 1000 := by
  refine ⟨?_, velSum_init_c1, posSum_init_c1, ?_, ?_⟩
  · rw [c1Body_eval]
    ext <;> norm_num [mkBody, Vec2.zero]
  · rw [velSum_init_c1]
    norm_num [abs_le]
  · rw [posSum_init_c1]
    norm_num [abs_le]

/-- Witness for the amended claim C1 on the concrete population. -/
theorem C1_witness : maxRadius (initBodies c1Bodies) = 1 :=
  (C1_amended c1Bodies
    (by
      intro b hb
      rw [List.eq_of_mem_replicate hb]
      rfl)
    (by rw [maxRadius_c1]; norm_num)).2.2

end

end NBody
